import Mathlib

/-!
Verification of the Salesforce Report Exporter (exporter.py, salesforce_auth.py,
main.py) against its natural-language specification.

Strings are modelled as `List Char` (Python `str`); machine-level details such
as HTTP transport are modelled as explicit transcripts/oracles.  Every
definition is translated from the repository's source except where a doc
comment explicitly says `Modelled from the spec:`.
-/

namespace SF

/-! ## Python string primitives -/

/-- The whitespace characters stripped by Python's `str.strip()` (ASCII range). -/
def pyIsSpace (c : Char) : Bool :=
  c = ' ' || c = '\t' || c = '\n' || c = '\r' || c = '\x0b' || c = '\x0c'

/-- `str.lstrip`-style removal of leading characters satisfying `p`. -/
def lstripP (p : Char → Bool) (l : List Char) : List Char :=
  l.dropWhile p

/-- `str.rstrip`-style removal of trailing characters satisfying `p`. -/
def rstripP (p : Char → Bool) : List Char → List Char
  | [] => []
  | c :: rest =>
    let r := rstripP p rest
    if r.isEmpty && p c then [] else c :: r

/-- Python `str.strip(chars)`: drop leading and trailing characters in the set. -/
def stripP (p : Char → Bool) (l : List Char) : List Char :=
  rstripP p (lstripP p l)

/-- Python `s.strip()` (no argument): strip whitespace from both ends. -/
def stripWS (l : List Char) : List Char := stripP pyIsSpace l

/-- Python's `needle in haystack` substring test. -/
def containsSub (needle : List Char) : List Char → Bool
  | [] => needle.isEmpty
  | c :: t => needle.isPrefixOf (c :: t) || containsSub needle t

/-- Python `s.split(sep)[0]`: the first line of a string split at `'\n'`. -/
def firstLineOf (l : List Char) : List Char :=
  l.takeWhile (fun c => c ≠ '\n')

/-- Code-point lexicographic order on strings, as used by Python `sorted`. -/
def listLe : List Char → List Char → Bool
  | [], _ => true
  | _ :: _, [] => false
  | a :: as, b :: bs => if a = b then listLe as bs else decide (a < b)

/-- Insert into a lexicographically sorted list (models one step of `sorted`). -/
def insSorted (n : List Char) : List (List Char) → List (List Char)
  | [] => [n]
  | m :: rest => if listLe n m then n :: m :: rest else m :: insSorted n rest

/-- Model of Python `sorted` on a list of strings (insertion sort; any correct
sort agrees with `sorted` for the total code-point order). -/
def sortNames (l : List (List Char)) : List (List Char) :=
  l.foldr insSorted []

/-! ## `safe_filename` (exporter.py lines 102-110) -/

/-- Python `c.isalnum()` restricted to the ASCII range handled in this model. -/
def pyIsAlnum (c : Char) : Bool := c.isAlphanum

/-- A character kept verbatim by `safe_filename`: alphanumeric or in `" ._-"`. -/
def keepChar (c : Char) : Bool :=
  pyIsAlnum c || c = ' ' || c = '.' || c = '_' || c = '-'

/-- `"".join(c if c.isalnum() or c in " ._-" else "_" for c in name)`. -/
def sanitizeChars (l : List Char) : List Char :=
  l.map (fun c => if keepChar c then c else '_')

/-- One pass of Python `safe.replace("__", "_")` (left-to-right,
non-overlapping occurrences of `"__"` each replaced by `"_"`). -/
def replaceDD : List Char → List Char
  | [] => []
  | [c] => [c]
  | c :: d :: rest =>
    if c = '_' && d = '_' then '_' :: replaceDD rest
    else c :: replaceDD (d :: rest)

/-- Whether `"__"` occurs in the string (the `while "__" in safe` guard). -/
def hasDD : List Char → Bool
  | [] => false
  | [_] => false
  | c :: d :: rest => (c = '_' && d = '_') || hasDD (d :: rest)

/-- The `while "__" in safe: safe = safe.replace("__", "_")` loop, with an
explicit iteration budget; each productive pass strictly shrinks the string, so
`l.length + 1` passes always reach the loop's exit condition (see
`hasDD_pyCollapse`). -/
def collapseIter : Nat → List Char → List Char
  | 0, l => l
  | fuel + 1, l => if hasDD l then collapseIter fuel (replaceDD l) else l

/-- The fully collapsed string produced by the `while` loop. -/
def pyCollapse (l : List Char) : List Char :=
  collapseIter (l.length + 1) l

/-- The fallback name returned for empty input. -/
def unnamedReport : List Char := "unnamed_report".data

/-- A character stripped by `safe.strip("_ ")`. -/
def stripUS (c : Char) : Bool := c = '_' || c = ' '

/-- `safe_filename(name, max_length)` from exporter.py. -/
def safe_filename (maxLength : Nat) (name : List Char) : List Char :=
  if name.isEmpty then unnamedReport
  else
    let safe := pyCollapse (sanitizeChars name)
    let safe := stripP stripUS safe
    if safe.isEmpty then unnamedReport else safe.take maxLength

/-! ### Basic lemmas about the string primitives -/

theorem replaceDD_length_le : ∀ l : List Char, (replaceDD l).length ≤ l.length
  | [] => by simp [replaceDD]
  | [c] => by simp [replaceDD]
  | c :: d :: rest => by
    rw [replaceDD]
    by_cases h : c = '_' && d = '_'
    · simp only [h, if_pos]
      have := replaceDD_length_le rest
      simp only [List.length_cons]
      omega
    · simp only [h, if_neg, Bool.false_eq_true, not_false_iff]
      have := replaceDD_length_le (d :: rest)
      simp only [List.length_cons] at *
      omega

theorem replaceDD_length_lt : ∀ l : List Char, hasDD l = true →
    (replaceDD l).length < l.length
  | [], h => by simp [hasDD] at h
  | [c], h => by simp [hasDD] at h
  | c :: d :: rest, h => by
    rw [replaceDD]
    rw [hasDD] at h
    by_cases hc : c = '_' && d = '_'
    · simp only [hc, if_pos]
      have := replaceDD_length_le rest
      simp only [List.length_cons]
      omega
    · simp only [hc, if_neg, Bool.false_eq_true, not_false_iff]
      simp only [hc, Bool.false_or] at h
      have := replaceDD_length_lt (d :: rest) h
      simp only [List.length_cons] at *
      omega

theorem hasDD_collapseIter : ∀ (fuel : Nat) (l : List Char),
    l.length ≤ fuel → hasDD (collapseIter fuel l) = false := by
  intro fuel
  induction fuel with
  | zero =>
    intro l hl
    have : l = [] := List.length_eq_zero.mp (Nat.le_zero.mp hl)
    subst this
    simp [collapseIter, hasDD]
  | succ n ih =>
    intro l hl
    rw [collapseIter]
    by_cases h : hasDD l = true
    · simp only [h, if_pos]
      exact ih _ (by have := replaceDD_length_lt l h; omega)
    · simp only [Bool.not_eq_true] at h
      simp [h]

theorem hasDD_pyCollapse (l : List Char) : hasDD (pyCollapse l) = false :=
  hasDD_collapseIter _ _ (by omega)

theorem collapseIter_of_not_hasDD (fuel : Nat) (l : List Char)
    (h : hasDD l = false) : collapseIter fuel l = l := by
  cases fuel with
  | zero => rfl
  | succ n => simp [collapseIter, h]

theorem pyCollapse_of_not_hasDD (l : List Char) (h : hasDD l = false) :
    pyCollapse l = l :=
  collapseIter_of_not_hasDD _ _ h

theorem all_dropWhile_iff (p : Char → Bool) (l : List Char) :
    (l.dropWhile p).all p = l.all p := by
  induction l with
  | nil => simp
  | cons c t ih =>
    by_cases h : p c
    · simp [List.dropWhile_cons, h, ih]
    · simp [List.dropWhile_cons, h]

theorem rstripP_eq_nil_iff (p : Char → Bool) (l : List Char) :
    rstripP p l = [] ↔ l.all p = true := by
  induction l with
  | nil => simp [rstripP]
  | cons c t ih =>
    rw [rstripP]
    by_cases h : (rstripP p t).isEmpty && p c
    · simp only [h, if_pos]
      simp only [Bool.and_eq_true, List.isEmpty_iff] at h
      simp [List.all_cons, h.2, ih.mp h.1]
    · simp only [h, if_neg, Bool.false_eq_true, not_false_iff]
      constructor
      · intro hc; cases hc
      · intro hall
        simp only [List.all_cons, Bool.and_eq_true] at hall
        exfalso
        apply h
        simp [List.isEmpty_iff, ih.mpr hall.2, hall.1]

theorem stripP_eq_nil_iff (p : Char → Bool) (l : List Char) :
    stripP p l = [] ↔ l.all p = true := by
  rw [stripP, lstripP, rstripP_eq_nil_iff, all_dropWhile_iff]

/-! ## `retry_request` (exporter.py lines 44-99)

One attempt of the loop observes either an HTTP response (status plus an
optional `Retry-After` header, itself either an integer or unparseable) or an
exception raised by `requests` (`Timeout` or another `RequestException`).  The
network is modelled as a transcript assigning an observation to each attempt
index.  The model returns the outcome together with the list of `time.sleep`
durations performed, in order. -/

/-- What attempt `i` of the retry loop observes. -/
inductive Attempt where
  | resp (status : Nat) (retryAfter : Option (Option Nat))
  | timeoutExc (msg : List Char)
  | reqExc (msg : List Char)
deriving DecidableEq

/-- Outcome of `retry_request`: the returned response's status, or the message
of the exception that propagates. -/
inductive ReqOutcome where
  | ok (status : Nat)
  | raised (msg : List Char)
deriving DecidableEq

/-- The statuses retried with a wait: `(429, 500, 502, 503, 504)`. -/
def retryableStatuses : List Nat := [429, 500, 502, 503, 504]

/-- The message of the exception synthesized after the loop exhausts all
attempts: `f"Request failed after {max_retries} retries: {last_error}"`. -/
def synthMsg (maxRetries : Nat) (lastError : Option (List Char)) : List Char :=
  "Request failed after ".data ++ (Nat.repr maxRetries).data ++
    " retries: ".data ++ (match lastError with | none => "None".data | some m => m)

/-- Message of the `requests.HTTPError` raised by `response.raise_for_status()`
for a status of 400 or above. -/
def httpErrMsg (status : Nat) : List Char :=
  "HTTP error ".data ++ (Nat.repr status).data

/-- The wait duration and next backoff computed in the retryable-status branch:
`Retry-After` (when present and parseable) overwrites `backoff`, the wait uses
that value, then `backoff = min(backoff * 2, 60)`. -/
def retryStep (backoff : Nat) (retryAfter : Option (Option Nat)) : Nat × Nat :=
  let b1 := match retryAfter with | some (some n) => n | _ => backoff
  (b1, min (b1 * 2) 60)

/-- The `for attempt in range(max_retries)` loop.  `rem` is the number of
remaining iterations, `i` the current attempt index; `rem = 0` corresponds to
falling off the loop and raising the synthesized exception.  Exceptions retry
with `backoff` then double it (no cap) unless this was the final attempt, in
which case they re-raise.  A non-200 status below 400 is not retried and not
raised: the iteration ends and the loop continues. -/
def retryGo (tr : Nat → Attempt) (maxRetries : Nat) :
    Nat → Nat → Nat → Option (List Char) → List Nat → ReqOutcome × List Nat
  | 0, _, _, lastError, waits => (.raised (synthMsg maxRetries lastError), waits)
  | rem + 1, i, backoff, lastError, waits =>
    match tr i with
    | .resp status ra =>
      if status = 200 then (.ok status, waits)
      else if status ∈ retryableStatuses then
        let s := retryStep backoff ra
        retryGo tr maxRetries rem (i + 1) s.2 lastError (waits ++ [s.1])
      else if 400 ≤ status then (.raised (httpErrMsg status), waits)
      else retryGo tr maxRetries rem (i + 1) backoff lastError waits
    | .timeoutExc m =>
      if rem = 0 then (.raised m, waits)
      else retryGo tr maxRetries rem (i + 1) (backoff * 2) (some m) (waits ++ [backoff])
    | .reqExc m =>
      if rem = 0 then (.raised m, waits)
      else retryGo tr maxRetries rem (i + 1) (backoff * 2) (some m) (waits ++ [backoff])

/-- `retry_request(url, ..., max_retries)` driven by transcript `tr`:
`backoff` starts at 1, `last_error` at `None`. -/
def retry_request (tr : Nat → Attempt) (maxRetries : Nat) : ReqOutcome × List Nat :=
  retryGo tr maxRetries maxRetries 0 1 none []

/-- The transcript of claim C5: 503 with `Retry-After: 2`, then 503 with no
header, then 200. -/
def trC5 : Nat → Attempt := fun i =>
  match i with
  | 0 => .resp 503 (some (some 2))
  | 1 => .resp 503 none
  | _ => .resp 200 none

/-- A transcript on which every attempt observes a plain 503. -/
def tr503 : Nat → Attempt := fun _ => .resp 503 none

/-- An attempt that observes a retryable HTTP status (and hence no exception
and no success). -/
def isRetryableResp : Attempt → Bool
  | .resp s _ => s ∈ retryableStatuses
  | _ => false

/-! ## Version discovery (salesforce_auth.py lines 34-60, exporter.py 14-41) -/

/-- One `{version, label, url}` entry of the `/services/data/` payload; only
the `version` key is read, and it may be absent. -/
structure VersionEntry where
  version : Option (List Char)
deriving DecidableEq

/-- The observable result of the unauthenticated GET to `/services/data/`:
an exception, or a status with a body that either parses as a JSON list or
does not (`response.json()` raising, swallowed by the `except`). -/
inductive DataResp where
  | exc
  | resp (status : Nat) (body : Option (List VersionEntry))
deriving DecidableEq

/-- `SalesforceAuth.get_latest_api_version`: last entry's version (defaulting
to `"61.0"` when the entry lacks the key), with fallback `"58.0"` on any
failure. -/
def get_latest_api_version : DataResp → List Char
  | .exc => "58.0".data
  | .resp status body =>
    if status = 200 then
      match body with
      | some versions =>
        match versions.getLast? with
        | some last => last.version.getD "61.0".data
        | none => "58.0".data
      | none => "58.0".data
    else "58.0".data

/-- `exporter.get_org_api_version`: same shape, but the version is prefixed
with `v` and the in-entry default and fallback are both `"58.0"`. -/
def get_org_api_version : DataResp → List Char
  | .exc => "v58.0".data
  | .resp status body =>
    if status = 200 then
      match body with
      | some versions =>
        match versions.getLast? with
        | some last => 'v' :: last.version.getD "58.0".data
        | none => "v58.0".data
      | none => "v58.0".data
    else "v58.0".data

/-- Written from the claim: discovery succeeds exactly on a 200 response whose
body parses as a nonempty list, and then yields the last entry's version
(`keyDefault` filling in for a missing `version` key). -/
def versionSpec (keyDefault : List Char) : DataResp → Option (List Char)
  | .resp status (some versions) =>
    if status = 200 then versions.getLast?.map (fun e => e.version.getD keyDefault)
    else none
  | _ => none

/-! ### Claims C5, C7, C8 -/

/-- Claim C5, counterexample.  On the response sequence
`[503 (Retry-After: 2), 503, 200]` with `max_retries = 3`, the code performs
the waits `[2, 4]`, not `[2, 2]` as the claim states: the parsed `Retry-After`
value 2 overwrites the backoff counter, so the post-wait doubling starts from
2 (giving 4), not from the initial 1 second. -/
theorem c5_counterexample :
    retry_request trC5 3 = (.ok 200, [2, 4]) ∧ ([2, 4] : List Nat) ≠ [2, 2] := by
  constructor
  · decide
  · decide

/-- Claim C5 as amended: the run performs exactly 2 waits — 2 seconds (the
parsed `Retry-After` value) and then 4 seconds (that value doubled once) —
and returns the final 200 without raising.  In the retryable-status branch the
wait is the parsed `Retry-After` when present (the current backoff otherwise)
and the backoff after every wait is `min(2 * wait, 60)`, hence capped at 60. -/
theorem c5_retry_sequence :
    retry_request trC5 3 = (.ok 200, [2, 4]) ∧
    (∀ b : Nat, (retryStep b none).1 = b) ∧
    (∀ b n : Nat, (retryStep b (some (some n))).1 = n) ∧
    (∀ b ra, (retryStep b ra).2 = min ((retryStep b ra).1 * 2) 60 ∧
      (retryStep b ra).2 ≤ 60) := by
  refine ⟨by decide, fun b => rfl, fun b n => rfl, fun b ra => ⟨rfl, ?_⟩⟩
  exact Nat.min_le_right _ _

/-- Claim C7, counterexample.  When all 3 attempts observe a plain 503, the
loop exhausts and raises, but `last_error` was never assigned (retryable
statuses do not set it), so the synthesized message is literally
`"Request failed after 3 retries: None"`: it does not describe the observed
503 errors at all (the substring `"503"` does not occur in it). -/
theorem c7_counterexample :
    retry_request tr503 3 = (.raised (synthMsg 3 none), [1, 2, 4]) ∧
    synthMsg 3 none = "Request failed after 3 retries: None".data ∧
    containsSub "503".data (synthMsg 3 none) = false := by
  refine ⟨by decide, by decide, by decide⟩

theorem retryGo_all_retryable (tr : Nat → Attempt) (m : Nat) :
    ∀ (rem i b : Nat) (w : List Nat),
      (∀ j, j < rem → isRetryableResp (tr (i + j)) = true) →
      (retryGo tr m rem i b none w).1 = .raised (synthMsg m none) := by
  intro rem
  induction rem with
  | zero => intro i b w _; rfl
  | succ n ih =>
    intro i b w h
    have h0 : isRetryableResp (tr i) = true := by
      have := h 0 (Nat.succ_pos n)
      simpa using this
    rw [retryGo]
    cases htr : tr i with
    | resp s ra =>
      rw [htr] at h0
      simp only [isRetryableResp, decide_eq_true_eq] at h0
      have hs200 : s ≠ 200 := by
        intro hs; subst hs; revert h0; decide
      simp only [hs200, if_neg, if_pos h0, not_false_iff]
      exact ih (i + 1) _ _ (fun j hj => by
        have := h (j + 1) (by omega)
        simpa [Nat.add_assoc, Nat.add_comm 1 j] using this)
    | timeoutExc msg => rw [htr] at h0; simp [isRetryableResp] at h0
    | reqExc msg => rw [htr] at h0; simp [isRetryableResp] at h0

/-- Claim C7 as amended: exhausting all `max_retries` attempts on retryable
statuses raises a synthesized failure reporting the retry count and the
`last_error` variable — which retryable-status attempts never assign, so in
this scenario the message ends in `"None"` rather than describing the last
observed HTTP error. -/
theorem c7_exhaustion_message (tr : Nat → Attempt) (m : Nat)
    (h : ∀ i, i < m → isRetryableResp (tr i) = true) :
    (retry_request tr m).1 = .raised (synthMsg m none) :=
  retryGo_all_retryable tr m m 0 1 [] (fun j hj => by simpa using h j hj)

/-- Witness for `c7_exhaustion_message` at the all-503 transcript with
`max_retries = 3`. -/
theorem c7_exhaustion_message_witness :
    (retry_request tr503 3).1 = .raised (synthMsg 3 none) :=
  c7_exhaustion_message tr503 3 (fun _ _ => rfl)

/-- Claim C8: version discovery returns the last entry's version exactly on a
200 response with a parseable nonempty list (the per-entry default filling in
a missing `version` key), and the hard-coded fallback (`"58.0"`, resp.
`"v58.0"`) in every other case — network error, non-200 status, unparseable
or empty body.  Both functions are total, so discovery never aborts a login
that already succeeded. -/
theorem c8_version_discovery (r : DataResp) :
    get_latest_api_version r = (versionSpec "61.0".data r).getD "58.0".data ∧
    get_org_api_version r = 'v' :: (versionSpec "58.0".data r).getD "58.0".data := by
  cases r with
  | exc => exact ⟨rfl, rfl⟩
  | resp status body =>
    by_cases h : status = 200
    · subst h
      cases body with
      | none => exact ⟨rfl, rfl⟩
      | some versions =>
        cases hl : versions.getLast? with
        | none =>
          simp [get_latest_api_version, get_org_api_version, versionSpec, hl]
        | some last =>
          simp [get_latest_api_version, get_org_api_version, versionSpec, hl]
    · cases body with
      | none =>
        simp [get_latest_api_version, get_org_api_version, versionSpec, h]
      | some versions =>
        simp [get_latest_api_version, get_org_api_version, versionSpec, h]

/-! ## CSV export classification
(exporter.py `export_report_csv` lines 171-205 and the in-loop checks of
`export_all_reports_to_zip` lines 254-262) -/

def doctypeMark : List Char := "<!DOCTYPE".data

def htmlMark : List Char := "<html".data

def loginMark : List Char := "login.salesforce.com".data

def ec302Mark : List Char := "ec=302".data

def noAccessMark : List Char := "You do not have access".data

def errorWord : List Char := "Error".data

def sessionExpiredMsg : List Char := "Session expired or invalid. Please re-login.".data

def accessDeniedMsg : List Char := "Access denied to this report.".data

def htmlNotCsvMsg : List Char := "Received HTML instead of CSV. Report may not be exportable.".data

def emptyRespMsg : List Char := "Empty response received".data

/-- `f"Salesforce error: {first_line[:100]}"`. -/
def sfErrMsg (first_line : List Char) : List Char :=
  "Salesforce error: ".data ++ first_line.take 100

/-- `export_report_csv`: `raw` is the transport-level result for the UI export
URL (the response text, or the message of an exception raised by
`retry_request`, which propagates).  The function checks for HTML disguised as
CSV and otherwise returns the body verbatim. -/
def export_report_csv (raw : Except (List Char) (List Char)) :
    Except (List Char) (List Char) :=
  match raw with
  | .error e => .error e
  | .ok content =>
    if doctypeMark.isPrefixOf (stripWS content) || htmlMark.isPrefixOf (stripWS content) then
      if containsSub loginMark content || containsSub ec302Mark content then
        .error sessionExpiredMsg
      else if containsSub noAccessMark content then .error accessDeniedMsg
      else .error htmlNotCsvMsg
    else .ok content

/-- The additional checks `export_all_reports_to_zip` applies to the returned
body inside its per-report `try` block (empty response, inline error text). -/
def postChecks (csv_content : List Char) : Except (List Char) (List Char) :=
  if csv_content.isEmpty || (stripWS csv_content).isEmpty then .error emptyRespMsg
  else
    let first_line := if csv_content.isEmpty then [] else firstLineOf csv_content
    if containsSub errorWord first_line && decide (csv_content.length < 500) then
      .error (sfErrMsg first_line)
    else .ok csv_content

/-- The complete per-report classification pipeline: `export_report_csv`
followed by the caller's checks, any raised exception short-circuiting. -/
def checkBody (raw : Except (List Char) (List Char)) :
    Except (List Char) (List Char) :=
  match export_report_csv raw with
  | .error e => .error e
  | .ok c => postChecks c

/-- The error taxonomy of the claim (`ExportError{kind}` plus verbatim
acceptance). -/
inductive BodyClass where
  | sessionExpired
  | accessDenied
  | htmlGeneric
  | emptyBody
  | inlineErr (first_line : List Char)
  | verbatim (text : List Char)
deriving DecidableEq

/-- Written from the claim: classify the body in order — HTML
doctype/tag after trimming (session-expired on a login-redirect marker,
access-denied on the access phrase, generic otherwise), then empty or
whitespace-only, then a first line containing `"Error"` with total length
under 500, and otherwise the body verbatim. -/
def claimClassify (body : List Char) : BodyClass :=
  if doctypeMark.isPrefixOf (stripWS body) || htmlMark.isPrefixOf (stripWS body) then
    if containsSub loginMark body || containsSub ec302Mark body then .sessionExpired
    else if containsSub noAccessMark body then .accessDenied
    else .htmlGeneric
  else if body.all pyIsSpace then .emptyBody
  else if containsSub errorWord (firstLineOf body) && decide (body.length < 500) then
    .inlineErr (firstLineOf body)
  else .verbatim body

/-- How each classification kind surfaces in the code (the exception message,
or the accepted text). -/
def classToExcept : BodyClass → Except (List Char) (List Char)
  | .sessionExpired => .error sessionExpiredMsg
  | .accessDenied => .error accessDeniedMsg
  | .htmlGeneric => .error htmlNotCsvMsg
  | .emptyBody => .error emptyRespMsg
  | .inlineErr fl => .error (sfErrMsg fl)
  | .verbatim t => .ok t

theorem emptyCond_eq_all (body : List Char) :
    (body.isEmpty || (stripWS body).isEmpty) = body.all pyIsSpace := by
  by_cases h : body.all pyIsSpace = true
  · have hs : stripWS body = [] := (stripP_eq_nil_iff _ _).mpr h
    simp [hs, h]
  · have hs : ¬ stripWS body = [] := fun he => h ((stripP_eq_nil_iff _ _).mp he)
    have hb : ¬ body = [] := by
      rintro rfl
      exact h (by simp)
    simp only [Bool.not_eq_true] at h
    simp [h, List.isEmpty_iff, hs, hb]

/-- Claim C4: the response-body classification performed by
`export_report_csv` together with its caller's checks matches, branch for
branch and in order, the claim's taxonomy: HTML (session-expired /
access-denied / generic), then empty-or-whitespace, then inline error (first
line contains `"Error"` and length under 500), and otherwise the body is
returned unmodified. -/
theorem c4_body_classification (body : List Char) :
    checkBody (.ok body) = classToExcept (claimClassify body) := by
  by_cases h1 : (doctypeMark.isPrefixOf (stripWS body) ||
      htmlMark.isPrefixOf (stripWS body)) = true
  · by_cases h2 : (containsSub loginMark body || containsSub ec302Mark body) = true
    · simp [checkBody, export_report_csv, claimClassify, h1, h2, classToExcept]
    · simp only [Bool.not_eq_true] at h2
      by_cases h3 : containsSub noAccessMark body = true
      · simp [checkBody, export_report_csv, claimClassify, h1, h2, h3, classToExcept]
      · simp only [Bool.not_eq_true] at h3
        simp [checkBody, export_report_csv, claimClassify, h1, h2, h3, classToExcept]
  · simp only [Bool.not_eq_true] at h1
    have hE := emptyCond_eq_all body
    by_cases h4 : body.all pyIsSpace = true
    · rw [h4] at hE
      simp only [Bool.or_eq_true, List.isEmpty_iff] at hE
      simp [checkBody, export_report_csv, claimClassify, postChecks, h1, h4,
        classToExcept, emptyCond_eq_all]
    · simp only [Bool.not_eq_true] at h4
      rw [h4] at hE
      have hb : body.isEmpty = false := by
        cases body with
        | nil => simp at h4
        | cons c t => rfl
      have hs : ¬ stripWS body = [] := by
        have hE2 := hE
        simp only [hb, Bool.false_or] at hE2
        intro hc
        rw [hc] at hE2
        simp at hE2
      by_cases h5 : (containsSub errorWord (firstLineOf body) &&
          decide (body.length < 500)) = true
      · simp [checkBody, export_report_csv, claimClassify, postChecks, h1, h4,
          hb, hs, h5, classToExcept]
      · simp only [Bool.not_eq_true] at h5
        simp [checkBody, export_report_csv, claimClassify, postChecks, h1, h4,
          hb, hs, h5, classToExcept]

/-! ## Idempotency of `safe_filename` (claim C6) -/

/-- Whether the string ends in a character that `strip("_ ")` would remove. -/
def endsStrip (l : List Char) : Bool :=
  match l.getLast? with
  | some c => stripUS c
  | none => false

theorem keepChar_sanitize (l : List Char) :
    ∀ c ∈ sanitizeChars l, keepChar c = true := by
  intro c hc
  simp only [sanitizeChars, List.mem_map] at hc
  obtain ⟨a, -, rfl⟩ := hc
  by_cases h : keepChar a = true
  · rw [if_pos h]; exact h
  · rw [if_neg h]; decide

theorem sanitize_eq_self (l : List Char) (h : ∀ c ∈ l, keepChar c = true) :
    sanitizeChars l = l := by
  induction l with
  | nil => rfl
  | cons c t ih =>
    simp only [sanitizeChars, List.map_cons] at *
    rw [if_pos (h c (List.mem_cons_self c t))]
    have := ih (fun d hd => h d (List.mem_cons_of_mem c hd))
    simp only [sanitizeChars] at this
    rw [this]

theorem replaceDD_subset : ∀ l : List Char, replaceDD l ⊆ l
  | [] => by simp [replaceDD]
  | [c] => by simp [replaceDD]
  | c :: d :: rest => by
    rw [replaceDD]
    by_cases h : c = '_' && d = '_'
    · simp only [h, if_pos]
      intro x hx
      rcases List.mem_cons.mp hx with h1 | h2
      · subst h1
        simp only [Bool.and_eq_true, decide_eq_true_eq] at h
        simp [h.1]
      · exact List.mem_cons_of_mem _ (List.mem_cons_of_mem _ (replaceDD_subset rest h2))
    · simp only [h, if_neg, Bool.false_eq_true, not_false_iff]
      intro x hx
      rcases List.mem_cons.mp hx with h1 | h2
      · simp [h1]
      · exact List.mem_cons_of_mem _ (replaceDD_subset (d :: rest) h2)

theorem collapseIter_subset : ∀ (fuel : Nat) (l : List Char),
    collapseIter fuel l ⊆ l := by
  intro fuel
  induction fuel with
  | zero => intro l; rw [collapseIter]; exact List.Subset.refl l
  | succ n ih =>
    intro l
    rw [collapseIter]
    by_cases h : hasDD l = true
    · simp only [h, if_pos]
      exact fun x hx => replaceDD_subset l (ih (replaceDD l) hx)
    · simp only [Bool.not_eq_true] at h
      simp [h]

theorem pyCollapse_subset (l : List Char) : pyCollapse l ⊆ l :=
  collapseIter_subset _ l

theorem rstripP_isPrefix (p : Char → Bool) : ∀ l : List Char, rstripP p l <+: l
  | [] => by simp [rstripP]
  | c :: rest => by
    rw [rstripP]
    by_cases h : (rstripP p rest).isEmpty && p c
    · simp only [h, if_pos]
      exact List.nil_prefix
    · simp only [h, if_neg, Bool.false_eq_true, not_false_iff]
      exact List.cons_prefix_cons.mpr ⟨rfl, rstripP_isPrefix p rest⟩

theorem stripP_subset (p : Char → Bool) (l : List Char) : stripP p l ⊆ l :=
  fun _ hx =>
    (List.dropWhile_sublist p).subset
      ((rstripP_isPrefix p (lstripP p l)).subset hx)

theorem hasDD_cons_of (c : Char) (t : List Char) (h : hasDD t = true) :
    hasDD (c :: t) = true := by
  cases t with
  | nil => simp [hasDD] at h
  | cons d rest => rw [hasDD]; simp [h]

theorem hasDD_append_left : ∀ (a t : List Char), hasDD a = true →
    hasDD (a ++ t) = true
  | [], t, h => by simp [hasDD] at h
  | [c], t, h => by simp [hasDD] at h
  | c :: d :: rest, t, h => by
    rw [hasDD] at h
    have he : (c :: d :: rest) ++ t = c :: d :: (rest ++ t) := by simp
    rw [he, hasDD]
    rcases Bool.or_eq_true_iff.mp h with h1 | h2
    · simp [h1]
    · have := hasDD_append_left (d :: rest) t h2
      rw [List.cons_append] at this
      simp [this]

theorem hasDD_of_isPrefix {a l : List Char} (hp : a <+: l) (h : hasDD a = true) :
    hasDD l = true := by
  obtain ⟨t, rfl⟩ := hp
  exact hasDD_append_left a t h

theorem hasDD_dropWhile (p : Char → Bool) : ∀ l : List Char,
    hasDD (l.dropWhile p) = true → hasDD l = true := by
  intro l
  induction l with
  | nil => simp [List.dropWhile_nil]
  | cons c t ih =>
    rw [List.dropWhile_cons]
    by_cases h : p c = true
    · simp only [h, if_pos]
      exact fun hd => hasDD_cons_of c t (ih hd)
    · simp only [h, if_neg, Bool.false_eq_true, not_false_iff]
      exact id

theorem hasDD_stripP_false (p : Char → Bool) (l : List Char)
    (h : hasDD l = false) : hasDD (stripP p l) = false := by
  by_contra hc
  simp only [Bool.not_eq_false] at hc
  have h1 : hasDD (lstripP p l) = true :=
    hasDD_of_isPrefix (rstripP_isPrefix p (lstripP p l)) hc
  have h2 : hasDD l = true := hasDD_dropWhile p l h1
  rw [h2] at h
  cases h

theorem head?_of_isPrefix_ne_nil {a l : List Char} (hp : a <+: l)
    (ha : a ≠ []) : a.head? = l.head? := by
  obtain ⟨t, rfl⟩ := hp
  cases a with
  | nil => exact absurd rfl ha
  | cons c r => simp

theorem dropWhile_head?_false (p : Char → Bool) : ∀ (l : List Char) (c : Char),
    (l.dropWhile p).head? = some c → p c = false := by
  intro l
  induction l with
  | nil => intro c h; simp [List.dropWhile_nil] at h
  | cons d t ih =>
    intro c h
    rw [List.dropWhile_cons] at h
    by_cases hd : p d = true
    · rw [if_pos hd] at h
      exact ih c h
    · rw [if_neg hd] at h
      simp only [List.head?_cons, Option.some.injEq] at h
      subst h
      simpa using hd

theorem dropWhile_eq_self_of_head (p : Char → Bool) (l : List Char)
    (h : ∀ c, l.head? = some c → p c = false) : l.dropWhile p = l := by
  cases l with
  | nil => rfl
  | cons c t =>
    rw [List.dropWhile_cons, if_neg]
    rw [h c rfl]
    simp

theorem rstripP_eq_self_of_last (p : Char → Bool) : ∀ l : List Char,
    (∀ c, l.getLast? = some c → p c = false) → rstripP p l = l
  | [], _ => rfl
  | c :: rest, h => by
    rw [rstripP]
    cases hr : rest with
    | nil =>
      have := h c (by simp [hr])
      subst hr
      simp [rstripP, this]
    | cons d t =>
      have hrec : rstripP p rest = rest := by
        rw [hr]
        exact rstripP_eq_self_of_last p (d :: t)
          (fun e he => h e (by rw [hr, List.getLast?_cons_cons] at *; exact he))
      rw [← hr, hrec, if_neg]
      simp [hr]

theorem safe_filename_fixed (r : List Char)
    (hr : r ≠ [])
    (hkeep : ∀ c ∈ r, keepChar c = true)
    (hdd : hasDD r = false)
    (hhead : ∀ c, r.head? = some c → stripUS c = false)
    (hlast : ∀ c, r.getLast? = some c → stripUS c = false)
    (hlen : r.length ≤ 100) :
    safe_filename 100 r = r := by
  rw [safe_filename, if_neg (by simp [List.isEmpty_iff, hr])]
  simp only [sanitize_eq_self r hkeep, pyCollapse_of_not_hasDD r hdd, stripP,
    lstripP, dropWhile_eq_self_of_head _ _ hhead, rstripP_eq_self_of_last _ _ hlast]
  rw [if_neg (by simp [List.isEmpty_iff, hr])]
  exact List.take_of_length_le hlen

/-- Claim C6 as amended: `safe_filename` is idempotent on every name whose
sanitized result does not end in a stripped character (`'_'` or `' '`) — the
only way it can is length-cap truncation, since stripping happens before
truncation. -/
theorem c6_idempotent_unless_truncated (name : List Char)
    (h : endsStrip (safe_filename 100 name) = false) :
    safe_filename 100 (safe_filename 100 name) = safe_filename 100 name := by
  by_cases hn : name.isEmpty = true
  · have hv : safe_filename 100 name = unnamedReport := by
      rw [safe_filename, if_pos hn]
    rw [hv]
    decide
  · by_cases he : (stripP stripUS (pyCollapse (sanitizeChars name))).isEmpty = true
    · have hv : safe_filename 100 name = unnamedReport := by
        rw [safe_filename, if_neg hn]
        simp only [he, if_pos]
      rw [hv]
      decide
    · have hv : safe_filename 100 name =
          (stripP stripUS (pyCollapse (sanitizeChars name))).take 100 := by
        rw [safe_filename, if_neg hn]
        simp only [he, Bool.false_eq_true, if_neg, not_false_iff]
      set s3 := stripP stripUS (pyCollapse (sanitizeChars name)) with hs3def
      have hs3ne : s3 ≠ [] := by
        intro hc
        rw [hc] at he
        simp at he
      have hrne : s3.take 100 ≠ [] := by
        rw [Ne, List.take_eq_nil_iff]
        push_neg
        exact ⟨by omega, hs3ne⟩
      rw [hv]
      apply safe_filename_fixed
      · exact hrne
      · intro c hc
        exact keepChar_sanitize name c
          (pyCollapse_subset _ (stripP_subset _ _ (List.take_subset 100 s3 hc)))
      · by_contra hc
        simp only [Bool.not_eq_false] at hc
        have h1 : hasDD s3 = true := hasDD_of_isPrefix (List.take_prefix 100 s3) hc
        have h2 : hasDD s3 = false := by
          rw [hs3def]
          exact hasDD_stripP_false _ _ (hasDD_pyCollapse _)
        rw [h1] at h2
        cases h2
      · intro c hc
        have hth : (s3.take 100).head? = s3.head? :=
          head?_of_isPrefix_ne_nil (List.take_prefix 100 s3) hrne
        have hsh : s3.head? = (lstripP stripUS (pyCollapse (sanitizeChars name))).head? := by
          rw [hs3def]
          exact head?_of_isPrefix_ne_nil (rstripP_isPrefix _ _) hs3ne
        rw [hth, hsh] at hc
        exact dropWhile_head?_false stripUS _ c hc
      · intro c hc
        rw [endsStrip, hv] at h
        rw [hc] at h
        exact h
      · rw [List.length_take]
        omega

/-- The 101-character name whose sanitized form is truncated to end in a
space: 99 `'a'`s, a space, then `'b'`. -/
def c6Name : List Char := List.replicate 99 'a' ++ [' ', 'b']

set_option maxRecDepth 40000 in
/-- Claim C6, counterexample.  `safe_filename` strips `"_ "` before applying
the 100-character cap, so sanitizing `c6Name` yields 99 `'a'`s followed by a
trailing space, and a second application removes that space: sanitization is
not idempotent for every name. -/
theorem c6_counterexample :
    safe_filename 100 (safe_filename 100 c6Name) ≠ safe_filename 100 c6Name := by
  decide

/-- Witness for `c6_idempotent_unless_truncated` at the name
`"My Report.csv"`. -/
theorem c6_idempotent_witness :
    endsStrip (safe_filename 100 "My Report.csv".data) = false ∧
    safe_filename 100 (safe_filename 100 "My Report.csv".data) =
      safe_filename 100 "My Report.csv".data :=
  ⟨by decide, c6_idempotent_unless_truncated "My Report.csv".data (by decide)⟩

/-! ## SOAP login response parsing (salesforce_auth.py lines 170-263)

The XML body is modelled as a rose tree; `ElementTree` namespaced tags carry
their namespace as a braced URI prefix inside the tag string, exactly as the
code manipulates them (`tag.split(you-know-which-brace)[1]`). -/

/-- An XML element: tag (with namespace prefix in braces), text, children. -/
inductive Xml where
  | elem (tag : List Char) (text : List Char) (children : List Xml)

def tagOf : Xml → List Char
  | .elem t _ _ => t

def textOf : Xml → List Char
  | .elem _ s _ => s

def childrenOf : Xml → List Xml
  | .elem _ _ cs => cs

mutual

/-- `element.iter()`: the element followed by all descendants, document order. -/
def iterAll (x : Xml) : List Xml :=
  match x with
  | .elem t s cs => .elem t s cs :: iterChildren cs

def iterChildren (cs : List Xml) : List Xml :=
  match cs with
  | [] => []
  | c :: rest => iterAll c ++ iterChildren rest

end

/-- `parent.find('.//full-tag')`: first strict descendant with the given tag,
in document order. -/
def findDesc (fullTag : List Char) (x : Xml) : Option Xml :=
  (iterChildren (childrenOf x)).find? (fun e => tagOf e == fullTag)

/-- Python `s.split(sep)`. -/
def splitOnChar (sep : Char) : List Char → List (List Char)
  | [] => [[]]
  | c :: rest =>
    if c = sep then [] :: splitOnChar sep rest
    else
      match splitOnChar sep rest with
      | [] => [[c]]
      | s :: ss => (c :: s) :: ss

/-- `_find_element_by_local_name`'s tag normalization: when the closing brace
occurs in the tag, take the piece after the first one. -/
def localName (tag : List Char) : List Char :=
  if tag.contains '}' then
    match splitOnChar '}' tag with
    | _ :: second :: _ => second
    | _ => tag
  else tag

/-- `_find_element_by_local_name(parent, local_name)`: scan `parent.iter()`
(which includes `parent` itself) for the first matching local tag name. -/
def findByLocalName (parent : Xml) (localNm : List Char) : Option Xml :=
  (iterAll parent).find? (fun e => localName (tagOf e) == localNm)

/-- The partner-API namespace wrapper used by `ns={'sf': ...}` lookups. -/
def sfNS : List Char := "\x7burn:partner.soap.sforce.com\x7d".data

/-- The SOAP envelope namespace wrapper used for the `Fault` lookup. -/
def soapenvNS : List Char := "\x7bhttp://schemas.xmlsoap.org/soap/envelope/\x7d".data

/-- The local-name fallback of `_get_element_text`: first element with the
local tag name anywhere under (or at) `parent`, its text if non-empty. -/
def localTextLookup (parent : Xml) (tagName : List Char) : List Char :=
  match findByLocalName parent tagName with
  | some e => if (textOf e).isEmpty then [] else textOf e
  | none => []

/-- `_get_element_text(parent, tag_name, ns)`: namespace-qualified descendant
search first, then the namespace-agnostic fallback, then `""`. -/
def getElementText (parent : Xml) (tagName : List Char) : List Char :=
  match findDesc (sfNS ++ tagName) parent with
  | some e => if (textOf e).isEmpty then localTextLookup parent tagName else textOf e
  | none => localTextLookup parent tagName

/-- `_extract_instance_url(server_url)`: scheme+host via
`re.match(r'(https://[^/]+)', ...)`, or the input unchanged on no match. -/
def extract_instance_url (server_url : List Char) : List Char :=
  if server_url.isEmpty then []
  else if "https://".data.isPrefixOf server_url then
    let host := (server_url.drop 8).takeWhile (fun c => c ≠ '/')
    if host.isEmpty then server_url else "https://".data ++ host
  else server_url

/-- `fault.find('faultstring')` (direct, unqualified) and the message built
from it. -/
def faultstringText (fault : Xml) : List Char :=
  match (childrenOf fault).find? (fun e => tagOf e == "faultstring".data) with
  | some e => textOf e
  | none => "Unknown error".data

/-- The record a successful parse returns (the `Session` of the spec, without
the api_version added later by `login`). -/
structure LoginResult where
  session_id : List Char
  instance_url : List Char
  server_url : List Char
  user_id : List Char
  org_id : List Char
  user_name : List Char

/-- `_parse_login_response(response)`.  `status` is the HTTP status; `body` is
the XML parse outcome of the response text (`.error` when `ET.fromstring`
raises `ParseError`).  On non-200 the code raises either the extracted SOAP
fault or the HTTP status message — an `AuthError` in both cases, collapsed
here into one message. -/
def parse_login_response (status : Nat) (body : Except (List Char) Xml) :
    Except (List Char) LoginResult :=
  if status ≠ 200 then
    .error ("Login failed with HTTP ".data ++ (Nat.repr status).data)
  else
    match body with
    | .error e => .error ("Failed to parse login response: ".data ++ e)
    | .ok root =>
      match findDesc (soapenvNS ++ "Fault".data) root with
      | some fault => .error ("Login failed: ".data ++ faultstringText fault)
      | none =>
        let result? :=
          match findDesc (sfNS ++ "result".data) root with
          | some r => some r
          | none => findByLocalName root "result".data
        match result? with
        | none => .error "Could not parse login response - no result found".data
        | some result =>
          let session_id := getElementText result "sessionId".data
          if session_id.isEmpty then .error "No session ID in response".data
          else
            let server_url := getElementText result "serverUrl".data
            let instance_url := extract_instance_url server_url
            let userInfo? :=
              match findDesc (sfNS ++ "userInfo".data) result with
              | some u => some u
              | none => findByLocalName result "userInfo".data
            let user_id :=
              match userInfo? with
              | some u => getElementText u "userId".data
              | none => []
            let org_id :=
              match userInfo? with
              | some u => getElementText u "organizationId".data
              | none => []
            let user_name :=
              match userInfo? with
              | some u => getElementText u "userFullName".data
              | none => []
            .ok ⟨session_id, instance_url, server_url, user_id, org_id, user_name⟩

/-! ### Lemmas about the XML traversal -/

theorem mem_iterChildren {x : Xml} : ∀ {cs : List Xml},
    x ∈ iterChildren cs ↔ ∃ c ∈ cs, x ∈ iterAll c := by
  intro cs
  induction cs with
  | nil => simp [iterChildren]
  | cons c rest ih =>
    rw [iterChildren]
    simp only [List.mem_append, ih, List.mem_cons]
    constructor
    · rintro (h | ⟨d, hd, hx⟩)
      · exact ⟨c, Or.inl rfl, h⟩
      · exact ⟨d, Or.inr hd, hx⟩
    · rintro ⟨d, hd | hd, hx⟩
      · subst hd; exact Or.inl hx
      · exact Or.inr ⟨d, hd, hx⟩

theorem self_mem_iterAll (x : Xml) : x ∈ iterAll x := by
  cases x with
  | elem t s cs => rw [iterAll]; exact List.mem_cons_self _ _

theorem iterChildren_subset_iterAll (x : Xml) :
    iterChildren (childrenOf x) ⊆ iterAll x := by
  cases x with
  | elem t s cs =>
    rw [iterAll, childrenOf]
    exact fun z hz => List.mem_cons_of_mem _ hz

theorem mem_iterAll_trans : ∀ (r : Xml), ∀ x ∈ iterAll r, ∀ z ∈ iterAll x, z ∈ iterAll r
  | .elem t s cs => by
    intro x hx z hz
    rw [iterAll] at hx ⊢
    rcases List.mem_cons.mp hx with h1 | h2
    · subst h1
      rw [iterAll] at hz
      exact hz
    · obtain ⟨c, hc, hxc⟩ := mem_iterChildren.mp h2
      have hz2 : z ∈ iterAll c := mem_iterAll_trans c x hxc z hz
      exact List.mem_cons_of_mem _ (mem_iterChildren.mpr ⟨c, hc, hz2⟩)
termination_by r => sizeOf r
decreasing_by
  simp_wf
  have := List.sizeOf_lt_of_mem hc
  omega

/-- The hypothesis of claim C9: no element of the (parsed) response carries
local tag name `sessionId` with non-empty text; an unparseable body trivially
has none. -/
def noSessionId : Except (List Char) Xml → Prop
  | .error _ => True
  | .ok root =>
    ∀ x ∈ iterAll root, localName (tagOf x) = "sessionId".data → textOf x = []

theorem getElementText_sessionId_nil (root result : Xml)
    (hmem : result ∈ iterAll root)
    (h : ∀ x ∈ iterAll root, localName (tagOf x) = "sessionId".data → textOf x = []) :
    getElementText result "sessionId".data = [] := by
  have hlocal : localTextLookup result "sessionId".data = [] := by
    rw [localTextLookup]
    cases hl : findByLocalName result "sessionId".data with
    | none => rfl
    | some e =>
      have he1 : e ∈ iterAll result := List.mem_of_find?_eq_some hl
      have he2 : localName (tagOf e) = "sessionId".data := by
        have := List.find?_some hl
        exact beq_iff_eq.mp this
      have := h e (mem_iterAll_trans root result hmem e he1) he2
      simp [this]
  rw [getElementText]
  cases hd : findDesc (sfNS ++ "sessionId".data) result with
  | none => exact hlocal
  | some e =>
    have he1 : e ∈ iterChildren (childrenOf result) := List.mem_of_find?_eq_some hd
    have he2 : tagOf e = sfNS ++ "sessionId".data := by
      have := List.find?_some hd
      exact beq_iff_eq.mp this
    have he3 : localName (tagOf e) = "sessionId".data := by
      rw [he2]
      decide
    have htext : textOf e = [] :=
      h e (mem_iterAll_trans root result hmem e (iterChildren_subset_iterAll result he1)) he3
    simp [htext, hlocal]

/-- Claim C9: every HTTP-200 SOAP login response in which no `sessionId`
element with non-empty text can be found makes `_parse_login_response` raise
`SalesforceAuthError` — it never returns a session record. -/
theorem c9_missing_sessionid_raises (body : Except (List Char) Xml)
    (h : noSessionId body) :
    ∃ e, parse_login_response 200 body = .error e := by
  cases body with
  | error e =>
    exact ⟨_, rfl⟩
  | ok root =>
    rw [parse_login_response, if_neg (by omega)]
    cases hF : findDesc (soapenvNS ++ "Fault".data) root with
    | some fault => exact ⟨_, rfl⟩
    | none =>
      simp only
      cases hR1 : findDesc (sfNS ++ "result".data) root with
      | some r =>
        have hmem : r ∈ iterAll root :=
          iterChildren_subset_iterAll root (List.mem_of_find?_eq_some hR1)
        have hsid : getElementText r "sessionId".data = [] :=
          getElementText_sessionId_nil root r hmem h
        refine ⟨"No session ID in response".data, ?_⟩
        simp [hsid]
      | none =>
        cases hR2 : findByLocalName root "result".data with
        | none => exact ⟨_, rfl⟩
        | some r =>
          have hmem : r ∈ iterAll root := List.mem_of_find?_eq_some hR2
          have hsid : getElementText r "sessionId".data = [] :=
            getElementText_sessionId_nil root r hmem h
          refine ⟨"No session ID in response".data, ?_⟩
          simp [hsid]

/-- A concrete 200 response containing a `result` element whose `sessionId`
has empty text. -/
def xmlNoSession : Xml :=
  .elem (soapenvNS ++ "Envelope".data) []
    [.elem (sfNS ++ "result".data) []
      [.elem (sfNS ++ "sessionId".data) [] [],
       .elem (sfNS ++ "serverUrl".data) "https://na1.salesforce.com/services".data []]]

/-- Witness for `c9_missing_sessionid_raises` at `xmlNoSession`. -/
theorem c9_missing_sessionid_witness :
    ∃ e, parse_login_response 200 (.ok xmlNoSession) = .error e :=
  c9_missing_sessionid_raises (.ok xmlNoSession) (by
    show ∀ x ∈ iterAll xmlNoSession, localName (tagOf x) = "sessionId".data → textOf x = []
    decide)

/-! ## The export orchestrator (`export_all_reports_to_zip`, exporter.py
lines 207-316)

The report catalog (the result of `list_reports()`) is passed in as a list;
`env` maps a report id to the transport-level outcome of the UI-export GET
(the response text, or the message of a raised exception).  The working
directory is an association list with Python's overwrite-on-same-path
semantics; the ZIP is modelled by its entry names (the `_EXPORT_SUMMARY.txt`
text itself — timestamps, counts — is not needed by any claim and is not
modelled).  `time.sleep` delays are dropped. -/

/-- The fields of one catalog entry that the orchestrator reads, each through
`dict.get` and hence possibly absent. -/
structure ReportMeta where
  id : Option (List Char)
  name : Option (List Char)
  reportFormat : Option (List Char)
  folderId : Option (List Char)

/-- Python `report.get("name") or report_id`: a `None` or empty name falls
back to the id. -/
def pyOrName (a b : Option (List Char)) : Option (List Char) :=
  match a with
  | some s => if s.isEmpty then b else some s
  | none => b

/-- `safe_filename` applied to a possibly-`None` name (`if not name` catches
`None` exactly like the empty string). -/
def safe_filename_opt : Option (List Char) → List Char
  | none => unnamedReport
  | some s => safe_filename 100 s

/-- The sanitized base name the loop computes for a report. -/
def baseOf (r : ReportMeta) : List Char :=
  safe_filename_opt (pyOrName r.name r.id)

/-- `used_filenames` lookup (`base_name in used_filenames`). -/
def lookupCount (used : List (List Char × Nat)) (base : List Char) : Option Nat :=
  match used.find? (fun p => p.1 == base) with
  | some p => some p.2
  | none => none

/-- `used_filenames[base_name] = n` for an existing key. -/
def bumpCount (used : List (List Char × Nat)) (base : List Char) (n : Nat) :
    List (List Char × Nat) :=
  used.map (fun p => if p.1 == base then (p.1, n) else p)

/-- Filename assignment for one report (exporter.py lines 244-250): a fresh
base gets `base.csv`; a base seen `k` times before gets `base_{k+1}.csv`. -/
def assignNext (used : List (List Char × Nat)) (base : List Char) :
    List (List Char × Nat) × List Char :=
  match lookupCount used base with
  | some k =>
    (bumpCount used base (k + 1),
     base ++ "_".data ++ (Nat.repr (k + 1)).data ++ ".csv".data)
  | none => (used ++ [(base, 1)], base ++ ".csv".data)

/-- Record of one failed report (`failed.append({...})`). -/
structure FailureRec where
  id : Option (List Char)
  name : Option (List Char)
  rtype : List Char
  error : List Char

/-- Python `f"{x}"` for a possibly-`None` string. -/
def optStr : Option (List Char) → List Char
  | some s => s
  | none => "None".data

/-- The error-stub file content written for a failed report. -/
def errorStub (rid rname : Option (List Char)) (rtype err : List Char) : List Char :=
  "# Failed to export report\n# Report Name: ".data ++ optStr rname ++
    "\n# Report ID: ".data ++ optStr rid ++
    "\n# Report Type: ".data ++ rtype ++
    "\n# Error: ".data ++ err ++ "\n".data

/-- `Path.write_text`: overwrite the entry with that name if present,
otherwise append a new file. -/
def writeFile (dir : List (List Char × List Char)) (n content : List Char) :
    List (List Char × List Char) :=
  if n ∈ dir.map Prod.fst then
    dir.map (fun p => if p.1 = n then (n, content) else p)
  else dir ++ [(n, content)]

/-- The set-like effect of `writeFile` on the directory's name listing. -/
def insertName (ns : List (List Char)) (n : List Char) : List (List Char) :=
  if n ∈ ns then ns else ns ++ [n]

/-- The mutable state threaded through the `for report in reports` loop. -/
structure RunState where
  dir : List (List Char × List Char)
  used : List (List Char × Nat)
  successful : List (Option (List Char))
  failed : List FailureRec
  completed : Nat
  events : List (Nat × Nat)

def initState : RunState := ⟨[], [], [], [], 0, []⟩

/-- One iteration of the export loop (exporter.py lines 239-293): name
assignment, export attempt with the in-loop checks, CSV or error-stub write,
bookkeeping, and the progress callback (recorded as an event when a callback
is installed; its own exceptions are swallowed by the code and need no
modelling). -/
def processReport (env : Option (List Char) → Except (List Char) (List Char))
    (hasCb : Bool) (total : Nat) (st : RunState) (r : ReportMeta) : RunState :=
  let report_id := r.id
  let report_name := pyOrName r.name report_id
  let report_type := r.reportFormat.getD "TABULAR".data
  let a := assignNext st.used (baseOf r)
  let st1 :=
    match checkBody (env report_id) with
    | .ok content =>
      { st with dir := writeFile st.dir a.2 content, used := a.1,
                successful := st.successful ++ [report_name] }
    | .error e =>
      { st with
          dir := writeFile st.dir a.2 (errorStub report_id report_name report_type e),
          used := a.1,
          failed := st.failed ++ [FailureRec.mk report_id report_name report_type e] }
  { st1 with
      completed := st1.completed + 1,
      events :=
        if hasCb then st1.events ++ [(st1.completed + 1, total)] else st1.events }

def summaryName : List Char := "_EXPORT_SUMMARY.txt".data

def readmeName : List Char := "_README.txt".data

/-- The dictionary returned by `export_all_reports_to_zip`, together with the
ZIP's entry names, the working directory as it stood before packaging, and the
progress-callback invocations. -/
structure ExportResult where
  total : Nat
  successful : List (Option (List Char))
  failed : List FailureRec
  zipNames : List (List Char)
  dirFiles : List (List Char × List Char)
  events : List (Nat × Nat)

/-- `export_all_reports_to_zip` over a catalog: the empty catalog short-cut
writes only `_README.txt` into the ZIP and returns at once; otherwise the loop
runs and the ZIP receives every working-directory file in `sorted` order plus
the summary. -/
def export_all_reports_to_zip
    (env : Option (List Char) → Except (List Char) (List Char))
    (hasCb : Bool) (reports : List ReportMeta) : ExportResult :=
  let total := reports.length
  if total = 0 then
    { total := 0, successful := [], failed := [], zipNames := [readmeName],
      dirFiles := [], events := [] }
  else
    let fin := reports.foldl (processReport env hasCb total) initState
    { total := total, successful := fin.successful, failed := fin.failed,
      zipNames := sortNames (fin.dir.map Prod.fst) ++ [summaryName],
      dirFiles := fin.dir, events := fin.events }

/-- Modelled from the spec: `export_reports_by_folder_to_zip(output_zip_path,
folder_id)` is called by the GUI (main.py `_export_worker_folder`, lines
807-829) but its definition is missing from exporter.py in this repository.
Spec section 4.5 (LISTING) defines it as the same pipeline over "the catalog
filtered by folder id". -/
def export_reports_by_folder_to_zip
    (env : Option (List Char) → Except (List Char) (List Char))
    (hasCb : Bool) (catalog : List ReportMeta) (folderId : List Char) : ExportResult :=
  export_all_reports_to_zip env hasCb
    (catalog.filter (fun r => r.folderId == some folderId))

/-- Modelled from the spec: `export_selected_reports_to_zip(output_zip_path,
report_ids)` is called by the GUI (main.py `_export_worker_selected`, lines
831-850) but its definition is missing from exporter.py in this repository.
Spec section 4.5 (LISTING) defines it as the same pipeline over "the catalog
filtered to a caller-supplied id set". -/
def export_selected_reports_to_zip
    (env : Option (List Char) → Except (List Char) (List Char))
    (hasCb : Bool) (catalog : List ReportMeta) (ids : List (List Char)) : ExportResult :=
  export_all_reports_to_zip env hasCb
    (catalog.filter (fun r =>
      match r.id with
      | some i => ids.contains i
      | none => false))

/-- The filenames the loop assigns, in catalog order, threading the
`used_filenames` dictionary exactly as `assignNext` does. -/
def assignGo (used : List (List Char × Nat)) :
    List ReportMeta → List (List Char) × List (List Char × Nat)
  | [] => ([], used)
  | r :: rest =>
    let a := assignNext used (baseOf r)
    let g := assignGo a.1 rest
    (a.2 :: g.1, g.2)

/-- The full run's assigned filenames, in catalog order. -/
def assignFilenames (reports : List ReportMeta) : List (List Char) :=
  (assignGo [] reports).1

/-! ### Lemmas about the orchestrator -/

theorem map_overwrite_names (n c : List Char) :
    ∀ dir : List (List Char × List Char),
      (dir.map (fun p => if p.1 = n then (n, c) else p)).map Prod.fst =
        dir.map Prod.fst := by
  intro dir
  induction dir with
  | nil => rfl
  | cons p rest ih =>
    simp only [List.map_cons]
    rw [ih]
    by_cases h : p.1 = n
    · rw [if_pos h]
      simp [h]
    · rw [if_neg h]

theorem writeFile_names (dir : List (List Char × List Char)) (n c : List Char) :
    (writeFile dir n c).map Prod.fst = insertName (dir.map Prod.fst) n := by
  rw [writeFile, insertName]
  by_cases h : n ∈ dir.map Prod.fst
  · rw [if_pos h, if_pos h]
    exact map_overwrite_names n c dir
  · rw [if_neg h, if_neg h]
    simp

theorem mem_insertName (ns : List (List Char)) (n x : List Char) :
    x ∈ insertName ns n ↔ x ∈ ns ∨ x = n := by
  rw [insertName]
  by_cases h : n ∈ ns
  · rw [if_pos h]
    constructor
    · exact Or.inl
    · rintro (hx | rfl)
      · exact hx
      · exact h
  · rw [if_neg h]
    simp

theorem nodup_insertName (ns : List (List Char)) (n : List Char)
    (h : ns.Nodup) : (insertName ns n).Nodup := by
  rw [insertName]
  by_cases hm : n ∈ ns
  · rw [if_pos hm]; exact h
  · rw [if_neg hm]
    rw [List.nodup_append]
    exact ⟨h, List.nodup_singleton n, by
      intro a ha hb
      rw [List.mem_singleton] at hb
      subst hb
      exact hm ha⟩

theorem foldl_insertName_mem : ∀ (ns : List (List Char)) (acc : List (List Char))
    (x : List Char), x ∈ ns.foldl insertName acc ↔ x ∈ acc ∨ x ∈ ns := by
  intro ns
  induction ns with
  | nil => simp
  | cons n rest ih =>
    intro acc x
    rw [List.foldl_cons, ih, mem_insertName, List.mem_cons]
    constructor
    · rintro ((hx | rfl) | hx)
      · exact Or.inl hx
      · exact Or.inr (Or.inl rfl)
      · exact Or.inr (Or.inr hx)
    · rintro (hx | rfl | hx)
      · exact Or.inl (Or.inl hx)
      · exact Or.inl (Or.inr rfl)
      · exact Or.inr hx

theorem foldl_insertName_nodup : ∀ (ns : List (List Char)) (acc : List (List Char)),
    acc.Nodup → (ns.foldl insertName acc).Nodup := by
  intro ns
  induction ns with
  | nil => exact fun acc h => h
  | cons n rest ih =>
    intro acc h
    rw [List.foldl_cons]
    exact ih _ (nodup_insertName acc n h)

theorem foldl_insertName_of_nodup : ∀ (ns acc : List (List Char)),
    ns.Nodup → (∀ x ∈ ns, x ∉ acc) → ns.foldl insertName acc = acc ++ ns := by
  intro ns
  induction ns with
  | nil => simp
  | cons n rest ih =>
    intro acc hnd hdisj
    rw [List.foldl_cons]
    have h1 : insertName acc n = acc ++ [n] := by
      rw [insertName, if_neg (hdisj n (List.mem_cons_self n rest))]
    rw [h1, ih (acc ++ [n]) (List.nodup_cons.mp hnd).2]
    · simp
    · intro x hx
      rw [List.mem_append, List.mem_singleton]
      rintro (hxa | rfl)
      · exact hdisj x (List.mem_cons_of_mem n hx) hxa
      · exact (List.nodup_cons.mp hnd).1 hx

theorem insSorted_perm (n : List Char) : ∀ ns : List (List Char),
    (insSorted n ns).Perm (n :: ns)
  | [] => List.Perm.refl _
  | m :: rest => by
    rw [insSorted]
    by_cases h : listLe n m = true
    · rw [if_pos h]
    · rw [if_neg h]
      exact ((insSorted_perm n rest).cons m).trans (List.Perm.swap n m rest)

theorem sortNames_perm : ∀ l : List (List Char), (sortNames l).Perm l
  | [] => List.Perm.refl _
  | x :: rest => by
    rw [sortNames, List.foldr_cons]
    exact (insSorted_perm x _).trans ((sortNames_perm rest).cons x)

theorem processReport_used (env : Option (List Char) → Except (List Char) (List Char))
    (hasCb : Bool) (total : Nat) (st : RunState) (r : ReportMeta) :
    (processReport env hasCb total st r).used = (assignNext st.used (baseOf r)).1 := by
  rw [processReport]
  cases checkBody (env r.id) <;> rfl

theorem processReport_dirnames (env : Option (List Char) → Except (List Char) (List Char))
    (hasCb : Bool) (total : Nat) (st : RunState) (r : ReportMeta) :
    (processReport env hasCb total st r).dir.map Prod.fst =
      insertName (st.dir.map Prod.fst) (assignNext st.used (baseOf r)).2 := by
  rw [processReport]
  cases checkBody (env r.id) <;> exact writeFile_names _ _ _

theorem processReport_counts (env : Option (List Char) → Except (List Char) (List Char))
    (hasCb : Bool) (total : Nat) (st : RunState) (r : ReportMeta) :
    (processReport env hasCb total st r).successful.length +
      (processReport env hasCb total st r).failed.length =
      st.successful.length + st.failed.length + 1 := by
  rw [processReport]
  cases checkBody (env r.id) <;> simp <;> omega

theorem run_used (env : Option (List Char) → Except (List Char) (List Char))
    (hasCb : Bool) (total : Nat) :
    ∀ (reports : List ReportMeta) (st : RunState),
      (reports.foldl (processReport env hasCb total) st).used =
        (assignGo st.used reports).2 := by
  intro reports
  induction reports with
  | nil => intro st; rfl
  | cons r rest ih =>
    intro st
    rw [List.foldl_cons, assignGo, ih, processReport_used]

theorem run_dirnames (env : Option (List Char) → Except (List Char) (List Char))
    (hasCb : Bool) (total : Nat) :
    ∀ (reports : List ReportMeta) (st : RunState),
      (reports.foldl (processReport env hasCb total) st).dir.map Prod.fst =
        (assignGo st.used reports).1.foldl insertName (st.dir.map Prod.fst) := by
  intro reports
  induction reports with
  | nil => intro st; rfl
  | cons r rest ih =>
    intro st
    rw [List.foldl_cons, assignGo]
    simp only [List.foldl_cons]
    rw [ih, processReport_used, processReport_dirnames]

theorem run_counts (env : Option (List Char) → Except (List Char) (List Char))
    (hasCb : Bool) (total : Nat) :
    ∀ (reports : List ReportMeta) (st : RunState),
      (reports.foldl (processReport env hasCb total) st).successful.length +
        (reports.foldl (processReport env hasCb total) st).failed.length =
        st.successful.length + st.failed.length + reports.length := by
  intro reports
  induction reports with
  | nil => intro st; simp
  | cons r rest ih =>
    intro st
    rw [List.foldl_cons]
    rw [ih, processReport_counts]
    simp only [List.length_cons]
    omega

/-! ### Claims C1, C2, C3, C10 -/

/-- Claim C10: on an empty catalog the run returns the placeholder ZIP
(`_README.txt` only) with `total = 0` and never invokes the progress callback
— the events list is empty whether or not a callback is installed. -/
theorem c10_empty_catalog_no_progress
    (env : Option (List Char) → Except (List Char) (List Char)) (hasCb : Bool) :
    export_all_reports_to_zip env hasCb [] =
      { total := 0, successful := [], failed := [], zipNames := [readmeName],
        dirFiles := [], events := [] } := rfl

/-- A transport environment on which every export returns a normal CSV body. -/
def envOkCsv : Option (List Char) → Except (List Char) (List Char) :=
  fun _ => .ok "Name,Amount\nAcme,100".data

/-- The `[Sales, Sales, Sales]` example of the claim. -/
def salesCatalog : List ReportMeta :=
  [⟨some "r1".data, some "Sales".data, some "TABULAR".data, none⟩,
   ⟨some "r2".data, some "Sales".data, some "TABULAR".data, none⟩,
   ⟨some "r3".data, some "Sales".data, some "TABULAR".data, none⟩]

/-- Three catalog entries named `Sales`, `Sales`, `Sales_2`: the third's
sanitized base equals the suffixed filename already assigned to the second. -/
def collideCatalog : List ReportMeta :=
  [⟨some "r1".data, some "Sales".data, some "TABULAR".data, none⟩,
   ⟨some "r2".data, some "Sales".data, some "TABULAR".data, none⟩,
   ⟨some "r3".data, some "Sales_2".data, some "TABULAR".data, none⟩]

/-- Claim C2, counterexample.  On the catalog `[Sales, Sales, Sales_2]` (all
exports succeeding) the assigned filenames are `Sales.csv`, `Sales_2.csv`,
`Sales_2.csv`: the third write overwrites the second's file, so the working
directory holds 2 files while `total = 3` — the file count does not equal the
number of catalog reports. -/
theorem c2_counterexample :
    (export_all_reports_to_zip envOkCsv false collideCatalog).total = 3 ∧
    (export_all_reports_to_zip envOkCsv false collideCatalog).dirFiles.length = 2 := by
  constructor
  · rfl
  · decide

/-- Claim C2 as amended: `len(successful) + len(failed) = total = n` holds for
every run, and each report performs exactly one write under its assigned
filename, but colliding assignments overwrite, so the working-directory file
listing before packaging is exactly the distinct assigned filenames (without
duplicates) rather than one file per report; on an empty catalog no file is
written and the placeholder goes directly into the ZIP (see
`c10_empty_catalog_no_progress`). -/
theorem c2_run_invariants
    (env : Option (List Char) → Except (List Char) (List Char))
    (hasCb : Bool) (reports : List ReportMeta) :
    (export_all_reports_to_zip env hasCb reports).total = reports.length ∧
    (export_all_reports_to_zip env hasCb reports).successful.length +
      (export_all_reports_to_zip env hasCb reports).failed.length = reports.length ∧
    ((export_all_reports_to_zip env hasCb reports).dirFiles.map Prod.fst).Nodup ∧
    (∀ n, n ∈ (export_all_reports_to_zip env hasCb reports).dirFiles.map Prod.fst ↔
      n ∈ assignFilenames reports) := by
  by_cases h : reports.length = 0
  · have hr : reports = [] := List.length_eq_zero.mp h
    subst hr
    refine ⟨rfl, rfl, by simp [export_all_reports_to_zip], ?_⟩
    intro n
    simp [export_all_reports_to_zip, assignFilenames, assignGo]
  · have hv : export_all_reports_to_zip env hasCb reports =
        { total := reports.length,
          successful := (reports.foldl (processReport env hasCb reports.length) initState).successful,
          failed := (reports.foldl (processReport env hasCb reports.length) initState).failed,
          zipNames := sortNames ((reports.foldl (processReport env hasCb reports.length) initState).dir.map Prod.fst) ++ [summaryName],
          dirFiles := (reports.foldl (processReport env hasCb reports.length) initState).dir,
          events := (reports.foldl (processReport env hasCb reports.length) initState).events } := by
      rw [export_all_reports_to_zip]
      simp only [h, if_neg, Bool.false_eq_true, not_false_iff]
    rw [hv]
    refine ⟨rfl, ?_, ?_, ?_⟩
    · have := run_counts env hasCb reports.length reports initState
      simpa [initState] using this
    · have hd := run_dirnames env hasCb reports.length reports initState
      simp only [initState] at hd ⊢
      rw [hd]
      exact foldl_insertName_nodup _ _ (by simp)
    · intro n
      have hd := run_dirnames env hasCb reports.length reports initState
      simp only [initState] at hd ⊢
      rw [hd, foldl_insertName_mem]
      simp [assignFilenames]

/-- Claim C3 (code bug), evaluated at the failing input.  On report names
`[Sales, Sales, Sales_2]` the collision logic checks only sanitized base
names, so the third report's fresh base `Sales_2` reproduces the filename
already assigned to the second: the filenames are not pairwise distinct. -/
theorem c3_collision_bug :
    assignFilenames salesCatalog =
      ["Sales.csv".data, "Sales_2.csv".data, "Sales_3.csv".data] ∧
    assignFilenames collideCatalog =
      ["Sales.csv".data, "Sales_2.csv".data, "Sales_2.csv".data] ∧
    ¬ (assignFilenames collideCatalog).Nodup := by
  refine ⟨by decide, by decide, by decide⟩

theorem assignFilenames_pair (a b : ReportMeta) :
    assignFilenames [a, b] =
      if baseOf b = baseOf a then
        [baseOf a ++ ".csv".data,
         baseOf a ++ "_".data ++ (Nat.repr 2).data ++ ".csv".data]
      else [baseOf a ++ ".csv".data, baseOf b ++ ".csv".data] := by
  by_cases h : baseOf b = baseOf a
  · rw [if_pos h]
    simp [assignFilenames, assignGo, assignNext, lookupCount, bumpCount, h]
  · rw [if_neg h]
    have h2 : (baseOf a == baseOf b) = false :=
      beq_eq_false_iff_ne.mpr (fun hh => h hh.symm)
    simp [assignFilenames, assignGo, assignNext, lookupCount, h2]

theorem assignFilenames_pair_nodup (a b : ReportMeta) :
    (assignFilenames [a, b]).Nodup := by
  rw [assignFilenames_pair]
  by_cases h : baseOf b = baseOf a
  · rw [if_pos h]
    refine List.nodup_cons.mpr ⟨?_, List.nodup_singleton _⟩
    rw [List.mem_singleton]
    intro heq
    have hl := congrArg List.length heq
    have h2 : (Nat.repr 2).data.length = 1 := by decide
    simp only [List.length_append, h2] at hl
    simp at hl
  · rw [if_neg h]
    refine List.nodup_cons.mpr ⟨?_, List.nodup_singleton _⟩
    rw [List.mem_singleton]
    intro heq
    exact h (List.append_cancel_right heq).symm

/-- Claim C1: (a) every entry of the by-folder export's ZIP is the summary,
the empty-catalog placeholder, or a file assigned to a report of the requested
folder; (b) when the catalog holds exactly two reports with the selected ids,
the selected-export ZIP holds exactly their two (distinct) files plus the
summary. -/
theorem c1_folder_and_selected_exports :
    (∀ (env : Option (List Char) → Except (List Char) (List Char))
        (hasCb : Bool) (catalog : List ReportMeta) (x : List Char),
      ∀ n ∈ (export_reports_by_folder_to_zip env hasCb catalog x).zipNames,
        n = summaryName ∨ n = readmeName ∨
          n ∈ assignFilenames (catalog.filter (fun r => r.folderId == some x))) ∧
    (∀ (env : Option (List Char) → Except (List Char) (List Char))
        (hasCb : Bool) (catalog : List ReportMeta) (ids : List (List Char))
        (a b : ReportMeta),
      catalog.filter (fun r =>
        match r.id with
        | some i => ids.contains i
        | none => false) = [a, b] →
      (export_selected_reports_to_zip env hasCb catalog ids).zipNames.Perm
        (assignFilenames [a, b] ++ [summaryName]) ∧
      (assignFilenames [a, b]).Nodup) := by
  constructor
  · intro env hasCb catalog x n hn
    rw [export_reports_by_folder_to_zip] at hn
    set L := catalog.filter (fun r => r.folderId == some x) with hL
    by_cases h0 : L.length = 0
    · rw [export_all_reports_to_zip] at hn
      simp only [h0, if_pos] at hn
      rw [List.mem_singleton] at hn
      exact Or.inr (Or.inl hn)
    · rw [export_all_reports_to_zip] at hn
      simp only [h0, if_neg, Bool.false_eq_true, not_false_iff] at hn
      rw [List.mem_append, List.mem_singleton] at hn
      rcases hn with hn | rfl
      · have hperm := sortNames_perm
          ((L.foldl (processReport env hasCb L.length) initState).dir.map Prod.fst)
        have hn2 := hperm.mem_iff.mp hn
        have hd := run_dirnames env hasCb L.length L initState
        simp only [initState] at hd hn2
        rw [hd, foldl_insertName_mem] at hn2
        rcases hn2 with hc | hc
        · simp at hc
        · exact Or.inr (Or.inr hc)
      · exact Or.inl rfl
  · intro env hasCb catalog ids a b hfil
    rw [export_selected_reports_to_zip, hfil]
    have hnd : (assignFilenames [a, b]).Nodup := assignFilenames_pair_nodup a b
    refine ⟨?_, hnd⟩
    have h20 : ¬ (([a, b] : List ReportMeta).length = 0) := by simp
    rw [export_all_reports_to_zip]
    simp only [h20, if_neg, Bool.false_eq_true, not_false_iff]
    have hd := run_dirnames env hasCb ([a, b] : List ReportMeta).length [a, b] initState
    simp only [initState] at hd ⊢
    rw [hd]
    rw [show (assignGo ([] : List (List Char × Nat)) [a, b]).1 = assignFilenames [a, b]
      from rfl]
    rw [show (List.map Prod.fst ([] : List (List Char × List Char))) = [] from rfl]
    rw [foldl_insertName_of_nodup (assignFilenames [a, b]) [] hnd
      (fun x hx => List.not_mem_nil x), List.nil_append]
    exact (sortNames_perm (assignFilenames [a, b])).append_right [summaryName]

/-- First folder-`X` report of the witness catalog. -/
def c1a : ReportMeta :=
  ⟨some "r1".data, some "Alpha".data, some "TABULAR".data, some "X".data⟩

/-- Second folder-`X` report of the witness catalog. -/
def c1b : ReportMeta :=
  ⟨some "r3".data, some "Gamma".data, some "TABULAR".data, some "X".data⟩

/-- A four-report catalog: `r1`/`r3` live in folder `X`, `r2`/`r4` in `Y`. -/
def c1Catalog : List ReportMeta :=
  [c1a,
   ⟨some "r2".data, some "Beta".data, some "TABULAR".data, some "Y".data⟩,
   c1b,
   ⟨some "r4".data, some "Delta".data, some "TABULAR".data, some "Y".data⟩]

/-- Witness for `c1_folder_and_selected_exports`: part (a) applied to the ZIP
entry `Alpha.csv` of the folder-`X` export, part (b) to the id set
`{r1, r3}`. -/
theorem c1_folder_and_selected_witness :
    ("Alpha.csv".data = summaryName ∨ "Alpha.csv".data = readmeName ∨
      "Alpha.csv".data ∈
        assignFilenames (c1Catalog.filter (fun r => r.folderId == some "X".data))) ∧
    ((export_selected_reports_to_zip envOkCsv false c1Catalog
        ["r1".data, "r3".data]).zipNames.Perm
      (assignFilenames [c1a, c1b] ++ [summaryName]) ∧
     (assignFilenames [c1a, c1b]).Nodup) := by
  refine ⟨c1_folder_and_selected_exports.1 envOkCsv false c1Catalog "X".data
      "Alpha.csv".data (by decide),
    c1_folder_and_selected_exports.2 envOkCsv false c1Catalog
      ["r1".data, "r3".data] c1a c1b rfl⟩

end SF

